import Mathlib

/-!
Verification of the GUAC `files` command (cmd/guacone/cmd/files.go): the
collection coordinator's wait/drain loops, the per-document pipeline `emit`,
the graph merge performed by the assembler closure, and flag validation.

The embedding is shallow: Go byte slices become `List Nat`, Go strings become
`String`, channels become the interleaved list of items the coordinator's
`select` consumes, and the external pipeline stages (processor, ingestor,
graph store) become function-valued fields of a `Pipeline` record. A Go
runtime panic (the unchecked slice `d.Blob[:10]`) is modelled explicitly as
an aborting outcome.
-/

/-! ## Data model -/

/-- Document from pkg/handler/processor: an opaque byte payload `Blob` plus
`Format` and `DocType` metadata (the Go field is named `Type`, a keyword in
Lean). Bytes are modelled as `Nat`. -/
structure Document where
  Blob : List Nat
  Format : String
  DocType : String
  deriving DecidableEq, Repr

/-- DocumentTree is opaque to the coordinator core: only its identity matters,
so it is modelled as a wrapped number. -/
structure DocumentTree where
  payload : Nat
  deriving DecidableEq, Repr

/-- GuacNode is opaque to the coordinator core (assembler package is external
to the embedded file); modelled as a wrapped number. -/
structure GuacNode where
  payload : Nat
  deriving DecidableEq, Repr

/-- GuacEdge is opaque to the coordinator core; modelled as a wrapped number. -/
structure GuacEdge where
  payload : Nat
  deriving DecidableEq, Repr

/-- Graph from pkg/assembler: ordered sequences of nodes and edges. -/
structure Graph where
  Nodes : List GuacNode
  Edges : List GuacEdge
  deriving DecidableEq, Repr

/-- Modelled from the spec: `assembler.Graph.AppendGraph` is not under src/
(only its caller `getAssembler` is); the spec defines merging two Graphs as
concatenation of their Nodes and of their Edges, with no deduplication. -/
def Graph.AppendGraph (g h : Graph) : Graph :=
  { Nodes := g.Nodes ++ h.Nodes, Edges := g.Edges ++ h.Edges }

/-- The merge loop inside the closure returned by `getAssembler`
(files.go lines 189-195): start from an empty Graph and append each input
graph in sequence order. -/
def mergeGraphs (gs : List Graph) : Graph :=
  gs.foldl Graph.AppendGraph { Nodes := [], Edges := [] }

/-! ## Flag validation (files.go lines 149-165) -/

/-- The package-level `flags` struct: raw values of --db-addr, --creds,
--realm. -/
structure Flags where
  dbAddr : String
  creds : String
  realm : String
  deriving DecidableEq, Repr

/-- The `options` struct: resolved configuration. Every field starts at the
Go zero value "" and is only changed where files.go assigns it. -/
structure Options where
  dbAddr : String
  user : String
  pass : String
  realm : String
  path : String
  deriving DecidableEq, Repr

/-- Semantics of Go `strings.Split(s, sep)` for the one-character separator
used in files.go, over the character list: split at every occurrence of
`sep`; the result is always non-empty and splitting the empty string gives
one empty part, as in Go. -/
def goSplitChar (sep : Char) : List Char → List (List Char)
  | [] => [[]]
  | c :: rest =>
    match goSplitChar sep rest with
    | [] => [[]]
    | g :: gs => if c = sep then [] :: g :: gs else (c :: g) :: gs

/-- Go `strings.Split` on Lean strings (wrapper over `goSplitChar`). -/
def strSplit (s : String) (sep : Char) : List String :=
  (goSplitChar sep s.data).map String.mk

/-- Error message returned for a malformed --creds value (files.go line 153). -/
def credsErrMsg : String := "creds flag not in correct format user:pass"

/-- Error message returned for a wrong positional-argument count
(files.go line 160). -/
def pathErrMsg : String := "expected positional argument for file_path"

/-- validateFlags from files.go lines 149-165: split `creds` on a colon and
require exactly two parts, then require exactly one positional argument.
The Go code never assigns `opts.realm`, so the returned options carry the
zero value "" in that field. On the error paths Go returns a partially
filled `options` together with a non-nil error and the caller discards the
options, which `Except.error` captures. -/
def validateFlags (fl : Flags) (args : List String) : Except String Options :=
  let credsSplit := strSplit fl.creds ':'
  if credsSplit.length ≠ 2 then
    Except.error credsErrMsg
  else if args.length ≠ 1 then
    Except.error pathErrMsg
  else
    Except.ok
      { dbAddr := fl.dbAddr
        user := credsSplit.getD 0 ""
        pass := credsSplit.getD 1 ""
        realm := ""
        path := args.getD 0 "" }

/-- Auth token produced by graphdb. Modelled from the spec:
`createAuthToken(user, pass, realm)` builds connection credentials; the
graphdb package is not under src/. The token is modelled as the triple it is
built from. -/
structure AuthToken where
  user : String
  pass : String
  realm : String
  deriving DecidableEq, Repr

/-- Modelled from the spec: graphdb.CreateAuthTokenWithUsernameAndPassword
packages the three credential strings into a token. -/
def CreateAuthTokenWithUsernameAndPassword (u pw r : String) : AuthToken :=
  { user := u, pass := pw, realm := r }

/-- The auth-token construction performed by getAssembler (files.go
line 183): the token is built from the options' user, pass and realm. -/
def getAssemblerAuthToken (o : Options) : AuthToken :=
  CreateAuthTokenWithUsernameAndPassword o.user o.pass o.realm

/-! ## Pipeline and emit (files.go lines 98-116, 167-202) -/

/-- The three external stage functions the closures in files.go capture:
`processorFunc` wraps process.Process (getProcessor, lines 167-171),
`ingestorFunc` wraps parser.ParseDocumentTree (getIngestor, lines 172-180),
and `storeGraph` is assembler.StoreGraph as used inside the getAssembler
closure (line 196). Each is fallible, modelled with `Except`. -/
structure Pipeline where
  processorFunc : Document → Except String DocumentTree
  ingestorFunc : DocumentTree → Except String (List Graph)
  storeGraph : Graph → Except String Unit

/-- The closure returned by getAssembler (files.go lines 188-201): merge the
graphs of one emit invocation into `combined`, then call StoreGraph once on
the result. The first component records the sequence of StoreGraph calls
made, the second is the returned error value. -/
def assemblerFunc (store : Graph → Except String Unit) (gs : List Graph) :
    List Graph × Except String Unit :=
  let combined := mergeGraphs gs
  ([combined], store combined)

/-- Outcome of one `emit` invocation: which stage failed (with the logged
error), or success. In Go each failure branch logs and plain-returns, so
`emit` always returns normally; totality of this function is the embedding
of that. -/
inductive EmitResult where
  | processFailed (msg : String)
  | ingestFailed (msg : String)
  | assembleFailed (msg : String)
  | success
  deriving DecidableEq, Repr

/-- emit from files.go lines 98-116: run Process, then Ingest, then the
assembler closure; stop at the first failing stage. The first component is
the list of StoreGraph calls the invocation performed. -/
def emit (p : Pipeline) (d : Document) : List Graph × EmitResult :=
  match p.processorFunc d with
  | Except.error e => ([], EmitResult.processFailed e)
  | Except.ok docTree =>
    match p.ingestorFunc docTree with
    | Except.error e => ([], EmitResult.ingestFailed e)
    | Except.ok graphs =>
      match assemblerFunc p.storeGraph graphs with
      | (calls, Except.error e) => (calls, EmitResult.assembleFailed e)
      | (calls, Except.ok _) => (calls, EmitResult.success)

/-! ## The coordinator loops (files.go lines 124-145) -/

/-- One item consumed by the coordinator's `select`: a document received from
docChan, or a completion signal received from errChan (`none` is Go's nil
error, graceful completion). -/
inductive Item where
  | doc (d : Document)
  | done (e : Option String)
  deriving DecidableEq, Repr

/-- The documents carried by a trace of items, in channel (FIFO) order. -/
def chanDocs : List Item → List Document
  | [] => []
  | Item.doc d :: rest => d :: chanDocs rest
  | Item.done _ :: rest => chanDocs rest

/-- Number of completion signals in a trace of items. -/
def countDone : List Item → Nat
  | [] => 0
  | Item.doc _ :: rest => countDone rest
  | Item.done _ :: rest => countDone rest + 1

/-- Go slice expression `blob[:10]` as used in the log preview (files.go
lines 128 and 143): well-defined only when the payload has at least 10
bytes; otherwise the Go runtime panics, modelled as `none`. -/
def sliceTo10 (blob : List Nat) : Option (List Nat) :=
  if 10 ≤ blob.length then some (blob.take 10) else none

/-- Result of the wait loop: `finished` is normal exit (documents processed
with their emit results, items still unconsumed, final collectorsDone);
`panicked` is the `blob[:10]` runtime panic on document `d` (the panic
happens before `emit d`, so `processed` excludes `d`); `blocked` means the
trace was exhausted with fewer completions than required, i.e. the Go loop
would wait forever. -/
inductive WaitOutcome where
  | finished (processed : List (Document × (List Graph × EmitResult))) (remaining : List Item)
      (doneCount : Nat)
  | panicked (d : Document) (processed : List (Document × (List Graph × EmitResult)))
  | blocked (processed : List (Document × (List Graph × EmitResult))) (doneCount : Nat)
  deriving DecidableEq, Repr

/-- Prepend one processed document to a wait-loop outcome. The continuation
of the loop is built with this, so the outcome for the rest of the trace is
the same whatever this document's emit result was. -/
def pushDoc (x : Document × (List Graph × EmitResult)) : WaitOutcome → WaitOutcome
  | WaitOutcome.finished ps rem dc => WaitOutcome.finished (x :: ps) rem dc
  | WaitOutcome.panicked d ps => WaitOutcome.panicked d (x :: ps)
  | WaitOutcome.blocked ps dc => WaitOutcome.blocked (x :: ps) dc

/-- The wait loop of files.go lines 124-138:
`for collectorsDone < numCollectors { select ... }`. A received document is
previewed with `blob[:10]` (panic on short payloads) and then passed to
`emit`; a completion signal increments `collectorsDone` whether it carries
an error or is nil. The trace argument is the interleaved sequence of items
the `select` would consume, covering every possible relative ordering of
document receipts and completion signals. -/
def waitLoop (p : Pipeline) (n : Nat) : Nat → List Item → WaitOutcome
  | done, trace =>
    if n ≤ done then
      WaitOutcome.finished [] trace done
    else
      match trace with
      | [] => WaitOutcome.blocked [] done
      | Item.doc d :: rest =>
        match sliceTo10 d.Blob with
        | none => WaitOutcome.panicked d []
        | some _ => pushDoc (d, emit p d) (waitLoop p n done rest)
      | Item.done _ :: rest => waitLoop p n (done + 1) rest

/-- The drain loop of files.go lines 140-145:
`for len(docChan) > 0 { d := <-docChan; log(blob[:10]); emit(d) }`.
Consumes the documents still buffered in the channel in FIFO order until it
is empty; the second component records a `blob[:10]` panic (that document is
not passed to emit and the loop aborts). -/
def drainLoop (p : Pipeline) : List Document → List (Document × (List Graph × EmitResult)) × Option Document
  | [] => ([], none)
  | d :: rest =>
    match sliceTo10 d.Blob with
    | none => ([], some d)
    | some _ =>
      match drainLoop p rest with
      | (ps, pan) => ((d, emit p d) :: ps, pan)

/-- Overall result of the coordinator run: all documents processed (wait
loop then drain), or a panic, or a forever-blocked wait loop. -/
inductive RunResult where
  | ok (processed : List (Document × (List Graph × EmitResult)))
  | panicked (d : Document) (processed : List (Document × (List Graph × EmitResult)))
  | blocked (processed : List (Document × (List Graph × EmitResult)))
  deriving DecidableEq, Repr

/-- The whole coordinator of files.go lines 124-145: run the wait loop from
`collectorsDone = 0`, then drain the documents still in the channel. Under
the producers-quiesce-before-completing precondition, the documents buffered
in docChan when the wait loop exits are exactly the document items of the
unconsumed part of the trace. -/
def runCoordinator (p : Pipeline) (n : Nat) (trace : List Item) : RunResult :=
  match waitLoop p n 0 trace with
  | WaitOutcome.blocked ps _ => RunResult.blocked ps
  | WaitOutcome.panicked d ps => RunResult.panicked d ps
  | WaitOutcome.finished ps rem _ =>
    match drainLoop p (chanDocs rem) with
    | (qs, none) => RunResult.ok (ps ++ qs)
    | (qs, some d) => RunResult.panicked d (ps ++ qs)

/-- Documents a run passed to emit, in processing order. -/
def RunResult.emittedDocs : RunResult → List Document
  | RunResult.ok ps => ps.map Prod.fst
  | RunResult.panicked _ ps => ps.map Prod.fst
  | RunResult.blocked ps => ps.map Prod.fst

/-! ## Concrete data used by counterexamples and witnesses -/

/-- A pipeline whose stages all succeed and ingest nothing. -/
def pX : Pipeline :=
  { processorFunc := fun _ => Except.ok { payload := 0 }
    ingestorFunc := fun _ => Except.ok []
    storeGraph := fun _ => Except.ok () }

/-- A pipeline whose Process stage always fails. -/
def pFail : Pipeline :=
  { processorFunc := fun _ => Except.error "boom"
    ingestorFunc := fun _ => Except.ok []
    storeGraph := fun _ => Except.ok () }

/-- A document whose payload has only 3 bytes: `blob[:10]` panics on it. -/
def dShort : Document := { Blob := [1, 2, 3], Format := "f", DocType := "t" }

/-- A document with an 11-byte payload: `blob[:10]` is in bounds. -/
def dLong : Document :=
  { Blob := [0, 1, 2, 3, 4, 5, 6, 7, 8, 9, 10], Format := "f", DocType := "t" }

/-! ## Graph merge lemmas -/

theorem foldl_AppendGraph_nodes (gs : List Graph) (acc : Graph) :
    (gs.foldl Graph.AppendGraph acc).Nodes = acc.Nodes ++ (gs.map Graph.Nodes).flatten := by
  induction gs generalizing acc with
  | nil => simp
  | cons g rest ih => simp [ih, Graph.AppendGraph]

theorem foldl_AppendGraph_edges (gs : List Graph) (acc : Graph) :
    (gs.foldl Graph.AppendGraph acc).Edges = acc.Edges ++ (gs.map Graph.Edges).flatten := by
  induction gs generalizing acc with
  | nil => simp
  | cons g rest ih => simp [ih, Graph.AppendGraph]

/-- Claim C4: the assembler's merge is total over any finite sequence of
Graphs and yields the ordered concatenation of the inputs' Nodes (and
Edges) in input-sequence order with no deduplication; the empty sequence
yields an empty Graph, and the two-graph case has additive lengths with
g1's elements first. -/
theorem claim_C4 (gs : List Graph) (g1 g2 : Graph) :
    (mergeGraphs gs).Nodes = (gs.map Graph.Nodes).flatten ∧
    (mergeGraphs gs).Edges = (gs.map Graph.Edges).flatten ∧
    mergeGraphs [] = { Nodes := [], Edges := [] } ∧
    (mergeGraphs [g1, g2]).Nodes = g1.Nodes ++ g2.Nodes ∧
    (mergeGraphs [g1, g2]).Edges = g1.Edges ++ g2.Edges ∧
    (mergeGraphs [g1, g2]).Nodes.length = g1.Nodes.length + g2.Nodes.length ∧
    (mergeGraphs [g1, g2]).Edges.length = g1.Edges.length + g2.Edges.length := by
  refine ⟨?_, ?_, rfl, ?_, ?_, ?_, ?_⟩
  · simpa using foldl_AppendGraph_nodes gs { Nodes := [], Edges := [] }
  · simpa using foldl_AppendGraph_edges gs { Nodes := [], Edges := [] }
  · simp [mergeGraphs, Graph.AppendGraph]
  · simp [mergeGraphs, Graph.AppendGraph]
  · simp [mergeGraphs, Graph.AppendGraph]
  · simp [mergeGraphs, Graph.AppendGraph]

/-! ## Validation claims -/

/-- Claim C6: flag validation succeeds on a creds string that splits into
exactly two parts on a colon (given a valid argument list), binding those
parts as user and pass, and fails with the descriptive creds error on any
other shape. -/
theorem claim_C6 (fl : Flags) (args : List String) (u pw : String) :
    (strSplit fl.creds ':' = [u, pw] → args.length = 1 →
      ∃ o, validateFlags fl args = Except.ok o ∧ o.user = u ∧ o.pass = pw) ∧
    ((strSplit fl.creds ':').length ≠ 2 →
      validateFlags fl args = Except.error credsErrMsg) := by
  constructor
  · intro hs ha
    refine ⟨{ dbAddr := fl.dbAddr, user := u, pass := pw, realm := "",
              path := args.getD 0 "" }, ?_, rfl, rfl⟩
    simp [validateFlags, hs, ha]
  · intro h
    simp [validateFlags, h]

/-- Witness for C6 at the spec's concrete inputs: "alice:secret" validates
with user alice and pass secret; "alice" and "a:b:c" are rejected. -/
theorem claim_C6_witness :
    (∃ o, validateFlags { dbAddr := "a", creds := "alice:secret", realm := "neo4j" }
        ["p"] = Except.ok o ∧ o.user = "alice" ∧ o.pass = "secret") ∧
    validateFlags { dbAddr := "a", creds := "alice", realm := "neo4j" } ["p"] =
      Except.error credsErrMsg ∧
    validateFlags { dbAddr := "a", creds := "a:b:c", realm := "neo4j" } ["p"] =
      Except.error credsErrMsg :=
  ⟨(claim_C6 { dbAddr := "a", creds := "alice:secret", realm := "neo4j" }
      ["p"] "alice" "secret").1 (by decide) rfl,
   (claim_C6 { dbAddr := "a", creds := "alice", realm := "neo4j" } ["p"] "" "").2
      (by decide),
   (claim_C6 { dbAddr := "a", creds := "a:b:c", realm := "neo4j" } ["p"] "" "").2
      (by decide)⟩

/-- Claim C7: once the creds flag has the valid two-part shape, validateFlags
errors with the file_path message whenever the argument list does not have
exactly one element (zero, two or more), and with exactly one argument the
options' path is that argument. -/
theorem claim_C7 (fl : Flags) (args : List String)
    (hc : (strSplit fl.creds ':').length = 2) :
    (args.length ≠ 1 → validateFlags fl args = Except.error pathErrMsg) ∧
    ∀ a, args = [a] → ∃ o, validateFlags fl args = Except.ok o ∧ o.path = a := by
  constructor
  · intro ha
    simp [validateFlags, hc, ha]
  · rintro a rfl
    refine ⟨{ dbAddr := fl.dbAddr, user := (strSplit fl.creds ':').getD 0 "",
              pass := (strSplit fl.creds ':').getD 1 "", realm := "",
              path := a }, ?_, rfl⟩
    simp [validateFlags, hc]

/-- Witness for C7: with valid creds, zero arguments and two arguments give
the file_path error, and one argument becomes the path. -/
theorem claim_C7_witness :
    validateFlags { dbAddr := "a", creds := "alice:secret", realm := "neo4j" } [] =
      Except.error pathErrMsg ∧
    validateFlags { dbAddr := "a", creds := "alice:secret", realm := "neo4j" }
      ["x", "y"] = Except.error pathErrMsg ∧
    (∃ o, validateFlags { dbAddr := "a", creds := "alice:secret", realm := "neo4j" }
        ["q"] = Except.ok o ∧ o.path = "q") :=
  ⟨(claim_C7 { dbAddr := "a", creds := "alice:secret", realm := "neo4j" } []
      (by decide)).1 (by decide),
   (claim_C7 { dbAddr := "a", creds := "alice:secret", realm := "neo4j" }
      ["x", "y"] (by decide)).1 (by decide),
   (claim_C7 { dbAddr := "a", creds := "alice:secret", realm := "neo4j" } ["q"]
      (by decide)).2 "q" rfl⟩

/-- Claim C8 (code bug): with the --realm flag at its default "neo4j" and
valid creds, validateFlags returns options whose realm field is "" because
the source never assigns opts.realm; the auth token getAssembler builds
therefore carries realm "", not the flag's value. -/
theorem claim_C8 :
    validateFlags
        { dbAddr := "neo4j://localhost:7687", creds := "alice:secret",
          realm := "neo4j" } ["p"] =
      Except.ok
        { dbAddr := "neo4j://localhost:7687", user := "alice", pass := "secret",
          realm := "", path := "p" } ∧
    (getAssemblerAuthToken
        { dbAddr := "neo4j://localhost:7687", user := "alice", pass := "secret",
          realm := "", path := "p" }).realm = "" ∧
    ({ dbAddr := "neo4j://localhost:7687", creds := "alice:secret",
       realm := "neo4j" } : Flags).realm = "neo4j" ∧
    getAssemblerAuthToken
        { dbAddr := "neo4j://localhost:7687", user := "alice", pass := "secret",
          realm := "", path := "p" } ≠
      CreateAuthTokenWithUsernameAndPassword "alice" "secret" "neo4j" :=
  ⟨by rfl, rfl, rfl, by decide⟩

/-! ## Wait-loop unfolding lemmas -/

theorem waitLoop_exit (p : Pipeline) (n done : Nat) (trace : List Item)
    (h : n ≤ done) :
    waitLoop p n done trace = WaitOutcome.finished [] trace done := by
  rw [waitLoop.eq_def]
  simp [h]

theorem waitLoop_blocked_nil (p : Pipeline) (n done : Nat) (h : done < n) :
    waitLoop p n done [] = WaitOutcome.blocked [] done := by
  rw [waitLoop]
  simp [Nat.not_le.mpr h]

theorem waitLoop_doc_unfold (p : Pipeline) (n done : Nat) (d : Document)
    (rest : List Item) (h : done < n) :
    waitLoop p n done (Item.doc d :: rest) =
      match sliceTo10 d.Blob with
      | none => WaitOutcome.panicked d []
      | some _ => pushDoc (d, emit p d) (waitLoop p n done rest) := by
  rw [waitLoop]
  simp [Nat.not_le.mpr h]

theorem waitLoop_doc_step (p : Pipeline) (n done : Nat) (d : Document)
    (rest : List Item) (h : done < n) (hb : 10 ≤ d.Blob.length) :
    waitLoop p n done (Item.doc d :: rest) =
      pushDoc (d, emit p d) (waitLoop p n done rest) := by
  rw [waitLoop_doc_unfold p n done d rest h]
  simp [sliceTo10, hb]

theorem waitLoop_doc_panic (p : Pipeline) (n done : Nat) (d : Document)
    (rest : List Item) (h : done < n) (hb : d.Blob.length < 10) :
    waitLoop p n done (Item.doc d :: rest) = WaitOutcome.panicked d [] := by
  rw [waitLoop_doc_unfold p n done d rest h]
  simp [sliceTo10, Nat.not_le.mpr hb]

theorem waitLoop_done_step (p : Pipeline) (n done : Nat) (e : Option String)
    (rest : List Item) (h : done < n) :
    waitLoop p n done (Item.done e :: rest) = waitLoop p n (done + 1) rest := by
  rw [waitLoop]
  simp [Nat.not_le.mpr h]

/-! ## Wait-loop invariants -/

theorem waitLoop_finished_count (p : Pipeline) (n : Nat) :
    ∀ (trace : List Item) (done : Nat), done ≤ n →
      ∀ ps rem dc, waitLoop p n done trace = WaitOutcome.finished ps rem dc →
        dc = n := by
  intro trace
  induction trace with
  | nil =>
    intro done h1 ps rem dc heq
    by_cases hle : n ≤ done
    · rw [waitLoop_exit p n done [] hle] at heq
      cases heq
      exact Nat.le_antisymm h1 hle
    · rw [waitLoop_blocked_nil p n done (Nat.not_le.mp hle)] at heq
      exact absurd heq (by simp)
  | cons it rest ih =>
    intro done h1 ps rem dc heq
    by_cases hle : n ≤ done
    · rw [waitLoop_exit p n done _ hle] at heq
      cases heq
      exact Nat.le_antisymm h1 hle
    · have hlt : done < n := Nat.not_le.mp hle
      cases it with
      | doc d =>
        rw [waitLoop_doc_unfold p n done d rest hlt] at heq
        cases hs : sliceTo10 d.Blob with
        | none =>
          rw [hs] at heq
          exact absurd heq (by simp)
        | some pre =>
          rw [hs] at heq
          cases hw : waitLoop p n done rest with
          | finished ps2 rem2 dc2 =>
            rw [hw] at heq
            simp only [pushDoc] at heq
            cases heq
            exact ih done h1 _ _ _ hw
          | panicked d2 ps2 =>
            rw [hw] at heq
            exact absurd heq (by simp [pushDoc])
          | blocked ps2 dc2 =>
            rw [hw] at heq
            exact absurd heq (by simp [pushDoc])
      | done e =>
        rw [waitLoop_done_step p n done e rest hlt] at heq
        exact ih (done + 1) hlt ps rem dc heq

theorem waitLoop_spec (p : Pipeline) (n : Nat) :
    ∀ (trace : List Item) (done : Nat), done ≤ n →
      n ≤ done + countDone trace →
      (∀ d ∈ chanDocs trace, 10 ≤ d.Blob.length) →
      ∃ ps rem, waitLoop p n done trace = WaitOutcome.finished ps rem n ∧
        ps.map Prod.fst ++ chanDocs rem = chanDocs trace ∧
        ∀ d ∈ chanDocs rem, 10 ≤ d.Blob.length := by
  intro trace
  induction trace with
  | nil =>
    intro done h1 h2 _
    have hdn : done = n := Nat.le_antisymm h1 (by simpa [countDone] using h2)
    subst hdn
    exact ⟨[], [], waitLoop_exit p done done [] (Nat.le_refl done),
      by simp [chanDocs], by simp [chanDocs]⟩
  | cons it rest ih =>
    intro done h1 h2 hb
    by_cases hle : n ≤ done
    · have hdn : done = n := Nat.le_antisymm h1 hle
      subst hdn
      exact ⟨[], it :: rest, waitLoop_exit p done done _ (Nat.le_refl done),
        by simp, hb⟩
    · have hlt : done < n := Nat.not_le.mp hle
      cases it with
      | doc d =>
        have hbd : 10 ≤ d.Blob.length := hb d (by simp [chanDocs])
        have hbr : ∀ x ∈ chanDocs rest, 10 ≤ x.Blob.length := by
          intro x hx
          exact hb x (by simp [chanDocs, hx])
        have h2' : n ≤ done + countDone rest := by
          simpa [countDone] using h2
        obtain ⟨ps, rem, heq, hcat, hrem⟩ := ih done h1 h2' hbr
        refine ⟨(d, emit p d) :: ps, rem, ?_, ?_, hrem⟩
        · rw [waitLoop_doc_step p n done d rest hlt hbd, heq]
          rfl
        · simp [chanDocs, ← hcat]
      | done e =>
        have hbr : ∀ x ∈ chanDocs rest, 10 ≤ x.Blob.length := by
          intro x hx
          exact hb x (by simp [chanDocs, hx])
        have h2' : n ≤ (done + 1) + countDone rest := by
          simp [countDone] at h2
          omega
        obtain ⟨ps, rem, heq, hcat, hrem⟩ := ih (done + 1) hlt h2' hbr
        refine ⟨ps, rem, ?_, ?_, hrem⟩
        · rw [waitLoop_done_step p n done e rest hlt]
          exact heq
        · simpa [chanDocs] using hcat

/-! ## Drain-loop lemma -/

theorem drainLoop_total (p : Pipeline) :
    ∀ chan : List Document, (∀ d ∈ chan, 10 ≤ d.Blob.length) →
      drainLoop p chan = (chan.map fun d => (d, emit p d), none) := by
  intro chan
  induction chan with
  | nil => intro _; rfl
  | cons d rest ih =>
    intro h
    have hd : 10 ≤ d.Blob.length := h d (by simp)
    have hr := ih fun x hx => h x (by simp [hx])
    rw [drainLoop]
    simp [sliceTo10, hd, hr]

/-! ## Coordinator claims -/

/-- Claim C1 counterexample: with one collector, a trace that places one
3-byte document and then the collector's graceful completion satisfies the
producers-quiesce precondition, yet the run panics on the blob[:10] preview
and the placed document is never passed to emit. -/
theorem claim_C1_counterexample :
    runCoordinator pX 1 [Item.doc dShort, Item.done none] =
      RunResult.panicked dShort [] ∧
    chanDocs [Item.doc dShort, Item.done none] = [dShort] ∧
    (runCoordinator pX 1 [Item.doc dShort, Item.done none]).emittedDocs = [] ∧
    ([] : List Document) ≠ [dShort] :=
  ⟨rfl, rfl, rfl, by decide⟩

/-- Claim C1 (amended): under the producers-quiesce precondition — the trace
lists every item ever placed on the two channels in the order the select
observes them — with every collector completing and, additionally (forced
by the unchecked blob[:10] preview), every placed document carrying at
least 10 payload bytes, every document ever placed on the document channel
is passed to emit exactly once, in channel order, regardless of how
document receipts interleave with completion signals. -/
theorem claim_C1_amended (p : Pipeline) (n : Nat) (trace : List Item)
    (hdone : n ≤ countDone trace)
    (hblob : ∀ d ∈ chanDocs trace, 10 ≤ d.Blob.length) :
    ∃ ps, runCoordinator p n trace = RunResult.ok ps ∧
      ps.map Prod.fst = chanDocs trace := by
  obtain ⟨ps, rem, heq, hcat, hrem⟩ :=
    waitLoop_spec p n trace 0 (Nat.zero_le n) (by simpa using hdone) hblob
  refine ⟨ps ++ (chanDocs rem).map fun d => (d, emit p d), ?_, ?_⟩
  · rw [runCoordinator, heq]
    simp only [drainLoop_total p (chanDocs rem) hrem]
  · simp only [List.map_append, List.map_map]
    rw [← hcat]
    congr 1
    simp [Function.comp_def]

/-- Witness for the amended C1: a two-collector trace whose second document
is buffered behind both completion signals is still fully emitted. -/
theorem claim_C1_witness :
    ∃ ps, runCoordinator pX 2 [Item.doc dLong, Item.done none,
        Item.done (some "late"), Item.doc dLong] = RunResult.ok ps ∧
      ps.map Prod.fst = chanDocs [Item.doc dLong, Item.done none,
        Item.done (some "late"), Item.doc dLong] :=
  claim_C1_amended pX 2
    [Item.doc dLong, Item.done none, Item.done (some "late"), Item.doc dLong]
    (by decide) (by decide)

/-- Claim C2: the wait loop exits normally iff exactly n completion signals
have been received: any normal exit carries final completed-count exactly n;
a trace offering at least n completions (with in-bounds previews) reaches a
normal exit with count exactly n however documents interleave; and each
completion signal increments the count by one and behaves identically
whether it carries an error or is nil, so a single source's error never
terminates the run. -/
theorem claim_C2 (p : Pipeline) (n : Nat) (trace : List Item) :
    (∀ ps rem dc, waitLoop p n 0 trace = WaitOutcome.finished ps rem dc →
      dc = n) ∧
    (n ≤ countDone trace → (∀ d ∈ chanDocs trace, 10 ≤ d.Blob.length) →
      ∃ ps rem, waitLoop p n 0 trace = WaitOutcome.finished ps rem n) ∧
    (∀ (e : Option String) (done : Nat) (rest : List Item), done < n →
      waitLoop p n done (Item.done e :: rest) = waitLoop p n (done + 1) rest ∧
      waitLoop p n done (Item.done e :: rest) =
        waitLoop p n done (Item.done none :: rest)) := by
  refine ⟨waitLoop_finished_count p n trace 0 (Nat.zero_le n), ?_, ?_⟩
  · intro hd hb
    obtain ⟨ps, rem, heq, -, -⟩ :=
      waitLoop_spec p n trace 0 (Nat.zero_le n) (by simpa using hd) hb
    exact ⟨ps, rem, heq⟩
  · intro e done rest h
    rw [waitLoop_done_step p n done e rest h,
      waitLoop_done_step p n done none rest h]
    exact ⟨rfl, rfl⟩

/-- Witness for C2: a one-collector trace with an error-carrying completion
between two documents still reaches normal exit with count exactly 1. -/
theorem claim_C2_witness :
    ∃ ps rem, waitLoop pX 1 0
        [Item.doc dLong, Item.done (some "oops"), Item.doc dLong] =
      WaitOutcome.finished ps rem 1 :=
  (claim_C2 pX 1 [Item.doc dLong, Item.done (some "oops"), Item.doc dLong]).2.1
    (by decide) (by decide)

/-- Claim C3 counterexample: a 3-byte document buffered at completion time
makes the drain loop panic on the blob[:10] preview, so that buffered
document is never passed to emit. -/
theorem claim_C3_counterexample :
    drainLoop pX [dShort] = ([], some dShort) ∧
    (drainLoop pX [dShort]).1.map Prod.fst ≠ [dShort] :=
  ⟨rfl, by decide⟩

/-- Claim C3 (amended): after the wait loop exits, the drain step consumes
and passes to emit every document still buffered in the document channel,
in FIFO order, until the channel is empty — provided every buffered
document has at least 10 payload bytes; a shorter buffered document panics
the blob[:10] preview before reaching emit. -/
theorem claim_C3_amended (p : Pipeline) (chan : List Document)
    (hblob : ∀ d ∈ chan, 10 ≤ d.Blob.length) :
    drainLoop p chan = (chan.map fun d => (d, emit p d), none) :=
  drainLoop_total p chan hblob

/-- Witness for the amended C3: two buffered 11-byte documents are both
drained and emitted in FIFO order. -/
theorem claim_C3_witness :
    drainLoop pX [dLong, dLong] =
      ([dLong, dLong].map fun d => (d, emit pX d), none) :=
  claim_C3_amended pX [dLong, dLong] (by decide)

/-- Claim C5: each of the three stage failures makes emit return normally
with that document's result discarded (Process and Ingest failures make no
store call; an Assemble failure follows the single store attempt), and the
wait loop's continuation on the rest of the trace is built around emit's
result whatever it is, so a failing document never prevents the next
document on the channel from being emitted and processed. -/
theorem claim_C5 (p : Pipeline) (d : Document) (rest : List Item)
    (n done : Nat) (hrun : done < n) (hblob : 10 ≤ d.Blob.length) :
    (∀ e, p.processorFunc d = Except.error e →
      emit p d = ([], EmitResult.processFailed e)) ∧
    (∀ t e, p.processorFunc d = Except.ok t →
      p.ingestorFunc t = Except.error e →
      emit p d = ([], EmitResult.ingestFailed e)) ∧
    (∀ t gs e, p.processorFunc d = Except.ok t →
      p.ingestorFunc t = Except.ok gs →
      p.storeGraph (mergeGraphs gs) = Except.error e →
      emit p d = ([mergeGraphs gs], EmitResult.assembleFailed e)) ∧
    waitLoop p n done (Item.doc d :: rest) =
      pushDoc (d, emit p d) (waitLoop p n done rest) := by
  refine ⟨?_, ?_, ?_, waitLoop_doc_step p n done d rest hrun hblob⟩
  · intro e he
    simp [emit, he]
  · intro t e h1 h2
    simp [emit, h1, h2]
  · intro t gs e h1 h2 h3
    simp [emit, assemblerFunc, h1, h2, h3]

/-- Witness for C5: with an always-failing Process stage, emit on an
11-byte document returns the logged failure and the wait loop still
processes the rest of the trace through the same continuation. -/
theorem claim_C5_witness :
    emit pFail dLong = ([], EmitResult.processFailed "boom") ∧
    waitLoop pFail 1 0 [Item.doc dLong, Item.done none] =
      pushDoc (dLong, emit pFail dLong) (waitLoop pFail 1 0 [Item.done none]) :=
  ⟨(claim_C5 pFail dLong [Item.done none] 1 0 (by decide) (by decide)).1
      "boom" rfl,
   (claim_C5 pFail dLong [Item.done none] 1 0 (by decide) (by decide)).2.2.2⟩

/-- Claim C9: the log preview slices Blob[:10] without a bound check, so for
any received document with fewer than 10 payload bytes the slice is out of
bounds and the document fails before reaching emit: the wait loop panics
with nothing processed, and so does the drain loop. -/
theorem claim_C9 (p : Pipeline) (d : Document) (rest : List Item)
    (chan : List Document) (n done : Nat) (hb : d.Blob.length < 10)
    (hrun : done < n) :
    sliceTo10 d.Blob = none ∧
    waitLoop p n done (Item.doc d :: rest) = WaitOutcome.panicked d [] ∧
    drainLoop p (d :: chan) = ([], some d) := by
  have hn : sliceTo10 d.Blob = none := by
    simp [sliceTo10, Nat.not_le.mpr hb]
  refine ⟨hn, waitLoop_doc_panic p n done d rest hrun hb, ?_⟩
  rw [drainLoop]
  simp [hn]

/-- Witness for C9 on the concrete 3-byte document. -/
theorem claim_C9_witness :
    sliceTo10 dShort.Blob = none ∧
    waitLoop pX 1 0 [Item.doc dShort] = WaitOutcome.panicked dShort [] ∧
    drainLoop pX [dShort, dLong] = ([], some dShort) :=
  claim_C9 pX dShort [] [dLong] 1 0 (by decide) (by decide)

/-- Claim C10: whenever Process and Ingest both succeed for a document, the
assembler closure calls StoreGraph exactly once during that emit
invocation, with the merged graph of that single document's ingest output;
an empty ingest result stores the empty graph. The store-call list of each
such invocation has exactly one element, so writes happen per successfully
ingested document, never as one batched write per run. -/
theorem claim_C10 (p : Pipeline) (d : Document) (t : DocumentTree)
    (gs : List Graph) (hp : p.processorFunc d = Except.ok t)
    (hi : p.ingestorFunc t = Except.ok gs) :
    (emit p d).1 = [mergeGraphs gs] ∧
    (emit p d).1.length = 1 ∧
    (gs = [] → (emit p d).1 = [{ Nodes := [], Edges := [] }]) := by
  have h1 : (emit p d).1 = [mergeGraphs gs] := by
    cases hst : p.storeGraph (mergeGraphs gs) with
    | error e => simp [emit, assemblerFunc, hp, hi, hst]
    | ok u => simp [emit, assemblerFunc, hp, hi, hst]
  refine ⟨h1, by simp [h1], ?_⟩
  rintro rfl
  simpa [mergeGraphs] using h1

/-- Witness for C10: the all-succeeding pipeline ingests an empty graph list
and still performs exactly one store call, of the empty graph. -/
theorem claim_C10_witness :
    (emit pX dLong).1 = [mergeGraphs []] ∧
    (emit pX dLong).1.length = 1 ∧
    (([] : List Graph) = [] → (emit pX dLong).1 = [{ Nodes := [], Edges := [] }]) :=
  claim_C10 pX dLong { payload := 0 } [] rfl rfl
